import Mathlib

/-!
A verification development for the trade-analysis service: models of the
`analyze_trades` statistics routine and the `generate_coach_response`
selection logic from `src/app.py` and `src/functions/trade-analysis.py`,
together with the HTTP-level dispatch around them.

Modelling conventions:
* Python floats are modelled as exact rationals.
* A JSON/dict record is a structure whose optional fields are `Option`s;
  `d.get(k, v)` becomes `Option.getD`.
* Python's `" ".join(...)` is modelled by `joinSep " "`, `str.lower()` by a
  character-wise `Char.toLower` map, and the substring test `pat in s` by
  an infix test on the underlying character lists.
* `sorted(keys, key=f, reverse=True)` (Python's stable sort, which keeps
  ties in original order even with `reverse=True`) is modelled by
  `List.mergeSort` (also stable) with the comparison `f b ≤ f a`.
-/

namespace TradeApi

/-- One trade record as fetched from the trade store.  Only the fields read
by `analyze_trades` are modelled; `id`, `user_id` and `entry_date` are never
inspected by the analyzer. -/
structure Trade where
  trade_type : Option String := none
  pnl : Option ℚ := none
  notes : Option String := none
deriving DecidableEq, Repr

/-- Python `trade.get('pnl', 0)`. -/
def Trade.pnlVal (t : Trade) : ℚ := t.pnl.getD 0

/-- The record returned by `analyze_trades`: the pydantic model
`TradeAnalysisResult` in `src/app.py`, a plain dict with the same six keys
in `src/functions/trade-analysis.py`. -/
structure AnalysisResult where
  win_rate : ℚ
  avg_profit_loss : ℚ
  strategies : List String
  strengths : List String
  weaknesses : List String
  suggestions : List String
deriving DecidableEq, Repr

/-- Python `sep.join(parts)`. -/
def joinSep (sep : String) : List String → String
  | [] => ""
  | [x] => x
  | x :: xs => x ++ sep ++ joinSep sep xs

/-- Python `s.lower()`: character-wise lower-casing. -/
def strLower (s : String) : String := ⟨s.data.map Char.toLower⟩

/-- Python `s.strip()` on the character list: drop whitespace from both
ends. -/
def trimChars (l : List Char) : List Char :=
  ((l.dropWhile Char.isWhitespace).reverse.dropWhile Char.isWhitespace).reverse

/-- Python `s.strip()`. -/
def strTrim (s : String) : String := ⟨trimChars s.data⟩

/-- Python `pat in s`: substring test, modelled on the character lists. -/
def strContains (s pat : String) : Bool := decide (pat.data <:+: s.data)

/-- One step of `strategies_count[strategy] = strategies_count.get(strategy, 0) + 1`
on an insertion-ordered dict, modelled as an association list: increment the
first entry with key `s`, or append `(s, 1)` if no entry has key `s`. -/
def bump : List (String × Nat) → String → List (String × Nat)
  | [], s => [(s, 1)]
  | (k, c) :: rest, s =>
    if k = s then (k, c + 1) :: rest else (k, c) :: bump rest s

/-- The `strategies_count` dict after the `for trade in trades` loop of
`analyze_trades`: keys appear in first-appearance order, since Python dicts
preserve insertion order.  Records whose trimmed `trade_type` is empty are
skipped. -/
def strategyCounts (trades : List Trade) : List (String × Nat) :=
  trades.foldl (fun acc t =>
    let s := strTrim (t.trade_type.getD "")
    if s = "" then acc else bump acc s) []

/-- The `strategies_count[s]` lookup used as the sort key (`0` for keys
that are absent, which never happens for the keys being sorted). -/
def countOf (counts : List (String × Nat)) (s : String) : Nat :=
  (counts.lookup s).getD 0

/-- `sorted(strategies_count.keys(), key=lambda s: strategies_count[s], reverse=True)[:5]`.
Python's `sorted` is stable and `reverse=True` keeps equal-key elements in
original (insertion) order, which is `List.mergeSort` with comparison
`count b ≤ count a`. -/
def topStrategies (trades : List Trade) : List String :=
  let counts := strategyCounts trades
  (((counts.map Prod.fst).mergeSort
    (fun a b => decide (countOf counts b ≤ countOf counts a))).take 5)

/-- Python `[trade.get('notes', '') for trade in sampled_trades if trade.get('notes')]`:
keep the notes that are present and non-empty. -/
def notesOf (sampled : List Trade) : List String :=
  sampled.filterMap (fun t =>
    match t.notes with
    | none => none
    | some s => if s = "" then none else some s)

/-- The trimmed non-empty `trade_type` labels of the input, in input order:
the sequence over which `strategies_count` groups. -/
def labelList (trades : List Trade) : List String :=
  (trades.map (fun t => strTrim (t.trade_type.getD ""))).filter (fun s => s ≠ "")

/-- The distinct elements of a list, in order of first appearance. -/
def firstOccs : List String → List String
  | [] => []
  | s :: rest => s :: firstOccs (rest.filter (fun x => x ≠ s))
termination_by l => l.length
decreasing_by
  simp only [List.length_cons]
  exact Nat.lt_succ_of_le (List.length_filter_le _ _)

/-- The first-appearance-ordered association of each distinct element of `M`
with its number of occurrences in `M`: the explicit description of the
`strategies_count` dict. -/
def countsOf (M : List String) : List (String × Nat) :=
  (firstOccs M).map (fun s => (s, M.count s))

/-- The `win_rate` local of `analyze_trades`:
`profitable_trades / len(trades) if trades else 0` with
`profitable_trades = sum(1 for trade in trades if trade.get('pnl', 0) > 0)`. -/
def winRateOf (trades : List Trade) : ℚ :=
  if trades = [] then 0
  else ((trades.countP (fun t => decide (0 < t.pnlVal))) : ℚ) / (trades.length : ℚ)

/-- The `avg_pnl` local of `analyze_trades`:
`total_pnl / len(trades) if trades else 0`. -/
def avgPnlOf (trades : List Trade) : ℚ :=
  if trades = [] then 0
  else ((trades.map Trade.pnlVal).sum) / (trades.length : ℚ)

/-- The `all_notes` local of `analyze_trades`: the present, non-empty notes
of the sampled trades joined with single spaces. -/
def allNotesOf (sampled : List Trade) : String :=
  joinSep " " (notesOf sampled)

/-- The emotional-trading test of `analyze_trades`: `all_notes` is non-empty
(the `if all_notes:` truthiness guard) and its lower-casing contains
`"emotion"`, `"fear"` or `"greed"`. -/
def emotionalFlag (sampled : List Trade) : Bool :=
  allNotesOf sampled != "" &&
    (strContains (strLower (allNotesOf sampled)) "emotion" ||
     strContains (strLower (allNotesOf sampled)) "fear" ||
     strContains (strLower (allNotesOf sampled)) "greed")

/-- The trade-planning test of `analyze_trades`: `all_notes` is non-empty
and its lower-casing contains `"plan"`. -/
def planningFlag (sampled : List Trade) : Bool :=
  allNotesOf sampled != "" && strContains (strLower (allNotesOf sampled)) "plan"

/-- The body of `analyze_trades` for non-empty input, shared verbatim by
`src/app.py` (lines 81-142) and `src/functions/trade-analysis.py`
(lines 38-99).  The two files differ only in how `sampled_trades` is chosen,
so the chosen sample is a parameter.  Each qualitative rule appends to the
`strengths` / `weaknesses` / `suggestions` lists in the fixed source order,
and the four lists are prefix-truncated to 5/3/3/3 on construction. -/
def analyzeCore (trades sampled : List Trade) : AnalysisResult :=
  { win_rate := winRateOf trades
    avg_profit_loss := avgPnlOf trades
    strategies := (topStrategies trades).take 5
    strengths :=
      ((if (1 : ℚ)/2 < winRateOf trades then ["Above 50% win rate"] else []) ++
       (if 0 < avgPnlOf trades then ["Positive average P&L"] else []) ++
       (if 2 < (topStrategies trades).length then
         ["Diverse trading approaches (" ++ toString (topStrategies trades).length ++
          " different strategies)"]
        else []) ++
       (if planningFlag sampled then ["Evidence of trade planning in notes"] else [])).take 3
    weaknesses :=
      ((if (1 : ℚ)/2 < winRateOf trades then [] else ["Below 50% win rate"]) ++
       (if 0 < avgPnlOf trades then [] else ["Negative average P&L"]) ++
       (if emotionalFlag sampled then ["Emotional trading noted in multiple trades"]
        else [])).take 3
    suggestions :=
      ((if (1 : ℚ)/2 < winRateOf trades then []
        else ["Focus on improving your win rate by reviewing losing trades"]) ++
       (if 0 < avgPnlOf trades then []
        else ["Work on improving your average profit per trade"]) ++
       (if 2 < (topStrategies trades).length then []
        else ["Consider exploring more trading strategies to diversify your approach"]) ++
       (if emotionalFlag sampled then ["Work on emotional discipline during trading"]
        else [])).take 3 }

/-- The degenerate result `analyze_trades` returns on empty input. -/
def emptyAnalysis : AnalysisResult :=
  { win_rate := 0, avg_profit_loss := 0, strategies := [], strengths := [],
    weaknesses := [],
    suggestions := ["Start recording your trades to get personalized analysis."] }

/-- `analyze_trades` from `src/functions/trade-analysis.py` (lines 27-99):
the notes sample is deterministically `trades[:sample_size]` with
`sample_size = min(50, len(trades))`. -/
def fnAnalyzeTrades (trades : List Trade) : AnalysisResult :=
  if trades = [] then emptyAnalysis
  else analyzeCore trades (trades.take (min 50 trades.length))

/-- `analyze_trades` from `src/app.py` (lines 70-142): when more than 50
trades are present the notes sample is drawn by `np.random.choice`; the
drawn sample is the parameter `rnd`, unused for at most 50 trades. -/
def appAnalyzeTrades (trades : List Trade) (rnd : List Trade) : AnalysisResult :=
  if trades = [] then emptyAnalysis
  else analyzeCore trades
    (if trades.length ≤ min 50 trades.length then trades.take (min 50 trades.length) else rnd)

/-- The belt-and-suspenders truncation applied again at the HTTP boundary
(`src/app.py` lines 194-202, and the dict analogue at lines 237-248). -/
def retruncate (a : AnalysisResult) : AnalysisResult :=
  let a := if 5 < a.strategies.length then { a with strategies := a.strategies.take 5 } else a
  let a := if 3 < a.strengths.length then { a with strengths := a.strengths.take 3 } else a
  let a := if 3 < a.weaknesses.length then { a with weaknesses := a.weaknesses.take 3 } else a
  if 3 < a.suggestions.length then { a with suggestions := a.suggestions.take 3 } else a

/-- Outcome of one use of the text-generation backend, as observed by
`generate_coach_response`: the model may be unavailable (`generator is None`,
or the transformers import failed), the generation call may raise, or it
returns the full generated text (prompt and completion). -/
inductive GenOutcome where
  | noModel
  | err
  | ok (text : String)
deriving DecidableEq, Repr

/-- If `pat` is a prefix of `l`, the remainder of `l` after it. -/
def dropPrefixCh? : List Char → List Char → Option (List Char)
  | [], l => some l
  | _ :: _, [] => none
  | p :: ps, c :: cs => if c = p then dropPrefixCh? ps cs else none

/-- The remainder of `l` after the first occurrence of `pat`, scanning from
the left. -/
def dropAfterFirst? (pat : List Char) : List Char → Option (List Char)
  | [] => none
  | c :: cs =>
    match dropPrefixCh? pat (c :: cs) with
    | some rest => some rest
    | none => dropAfterFirst? pat cs

/-- Fuelled iteration of `dropAfterFirst?`: the suffix after the last
(non-overlapping, left-to-right) occurrence of `pat`, or the whole list when
`pat` does not occur — exactly the last element of Python's
`l.split(pat)`.  A fuel of `l.length` always suffices, since each
occurrence consumes at least one character. -/
def afterLastFuel (pat : List Char) : Nat → List Char → List Char
  | 0, l => l
  | fuel + 1, l =>
    match dropAfterFirst? pat l with
    | some rest => afterLastFuel pat fuel rest
    | none => l

/-- Python `generated_text.split("Your helpful advice:")[-1].strip()`:
the text after the last occurrence of the marker, whitespace-trimmed. -/
def extractAdvice (t : String) : String :=
  strTrim ⟨afterLastFuel "Your helpful advice:".data t.data.length t.data⟩

/-- `generate_coach_response` from `src/app.py` (lines 145-181).  The prompt
built from the user message and the analysis only influences the backend's
generated text, which is the payload of `GenOutcome.ok`; a missing model and
a raised exception both yield the fixed trouble message. -/
def appGenerateCoachResponse (_userMessage : String) (_analysis : AnalysisResult)
    (g : GenOutcome) : String :=
  match g with
  | .noModel => "I'm having trouble analyzing your trades right now. Please try again later."
  | .err => "I'm having trouble analyzing your trades right now. Please try again later."
  | .ok t =>
    let advice := extractAdvice t
    if advice = "" || advice.length < 10 then
      "Based on your trading performance, I recommend focusing on consistency and keeping detailed trade notes to identify patterns."
    else advice

/-- Python `round(q, 1)` rendered as a decimal string: stands in for the
formatting of `win_rate_percent` in the template strings.  (Python rounds
floats half-to-even; this exact-rational model rounds half away from the
midpoint upward.  No claim depends on the rendered digits.) -/
def fmtFixed1 (q : ℚ) : String :=
  let n : Int := round (q * 10)
  (if n < 0 then "-" else "") ++ toString (n.natAbs / 10) ++ "." ++ toString (n.natAbs % 10)

/-- Python `f-string` formatting with `:.2f`, same caveats as `fmtFixed1`. -/
def fmtFixed2 (q : ℚ) : String :=
  let n : Int := round (q * 100)
  (if n < 0 then "-" else "") ++ toString (n.natAbs / 100) ++ "." ++
    (if n.natAbs % 100 < 10 then "0" else "") ++ toString (n.natAbs % 100)

/-- The template fallback path of `generate_coach_response` in
`src/functions/trade-analysis.py` (lines 141-169): an insertion-ordered dict
of four keyed responses, scanned in order for the first key contained in the
lower-cased user message, with a default response when no key matches. -/
def templateResponse (userMessage : String) (a : AnalysisResult) : String :=
  let winRatePercent := fmtFixed1 (a.win_rate * 100)
  let avgPnl := fmtFixed2 a.avg_profit_loss
  let responses : List (String × String) :=
    [("how am i doing",
      "Based on your trading metrics, you have a " ++ winRatePercent ++
      "% win rate with an average P&L of $" ++ avgPnl ++ ". " ++
      (if 0 < a.avg_profit_loss then
        "Your consistent positive results show good trading discipline. "
       else
        "Focus on improving your risk management to achieve positive results. ")),
     ("what should i improve",
      "Based on your trading data, I recommend: " ++
      (if a.suggestions ≠ [] then joinSep ", " a.suggestions
       else "Keeping detailed notes on each trade to identify patterns.")),
     ("what are my strengths",
      "Your trading strengths include: " ++
      (if a.strengths ≠ [] then joinSep ", " a.strengths
       else "Not enough data to determine specific strengths yet.")),
     ("what are my weaknesses",
      "Areas for improvement include: " ++
      (if a.weaknesses ≠ [] then joinSep ", " a.weaknesses
       else "Not enough data to determine specific weaknesses yet."))]
  let defaultResponse :=
    "Based on your trading history with a " ++ winRatePercent ++
    "% win rate and $" ++ avgPnl ++ " average P&L, " ++
    "I recommend focusing on consistency and keeping detailed trade notes."
  match responses.find? (fun kr => strContains (strLower userMessage) kr.1) with
  | some kr => kr.2
  | none => defaultResponse

/-- `generate_coach_response` from `src/functions/trade-analysis.py`
(lines 102-169): the AI path returns the extracted advice capped to 500
characters when it is non-empty and at least 10 characters long; a missing
model, a raised exception, and a too-short extraction all fall through to
the template path. -/
def fnGenerateCoachResponse (userMessage : String) (a : AnalysisResult)
    (g : GenOutcome) : String :=
  match g with
  | .noModel => templateResponse userMessage a
  | .err => templateResponse userMessage a
  | .ok t =>
    let advice := extractAdvice t
    if advice != "" && 10 ≤ advice.length then advice.take 500
    else templateResponse userMessage a

/-- A chat message of the FastAPI `ChatRequest` pydantic model
(`src/app.py` lines 43-45): both fields are required strings. -/
structure Message where
  role : String
  content : String
deriving DecidableEq, Repr

/-- The FastAPI `ChatRequest` pydantic model (`src/app.py` lines 47-49). -/
structure ChatRequest where
  messages : List Message
  user_id : String
deriving DecidableEq, Repr

/-- A chat message as read by the serverless handler with `msg.get('role')`
and `msg.get('content')`: either field may be absent. -/
structure JMsg where
  role : Option String := none
  content : Option String := none
deriving DecidableEq, Repr

/-- The observable HTTP response of an endpoint: an error status with its
message, a bare response message, or a response plus analysis payload. -/
inductive HttpOut where
  | errOut (status : Nat) (error : String)
  | msgOnly (status : Nat) (response : String)
  | okOut (status : Nat) (response : String) (analysis : AnalysisResult)
deriving DecidableEq, Repr

/-- The HTTP status code of a response. -/
def HttpOut.status : HttpOut → Nat
  | .errOut s _ => s
  | .msgOnly s _ => s
  | .okOut s _ _ => s

/-- The `POST /api/chat` endpoint of `src/app.py` (lines 209-255).  The trade
store read is `store` (`.error` models the supabase client raising, caught by
the handler's `except` as a 500), `rnd` is the notes sample for over-50
inputs, and `g` is the generation call outcome.  The last message with role
`"user"` is sought from the end; a missing or empty one yields a plain
200 response without analysis. -/
def appChat (req : ChatRequest) (store : Except String (List Trade))
    (rnd : List Trade) (g : GenOutcome) : HttpOut :=
  match (req.messages.reverse.find? (fun m => m.role = "user")).map Message.content with
  | none => .msgOnly 200 "I didn't receive a message to respond to."
  | some lastMessage =>
    if lastMessage = "" then .msgOnly 200 "I didn't receive a message to respond to."
    else
      match store with
      | .error e => .errOut 500 ("Error processing chat: " ++ e)
      | .ok trades =>
        let analysis := appAnalyzeTrades trades rnd
        let coach := appGenerateCoachResponse lastMessage analysis g
        let coach :=
          if 1000 < coach.length then coach.take 1000 ++ "... [response truncated]" else coach
        .okOut 200 coach (retruncate analysis)

/-- `handler.do_POST` from `src/functions/trade-analysis.py` (lines 227-287),
after JSON parsing: a falsy `user_id` is a 400, a missing or empty last user
message is a 400 with "No user message found", a store error is a 500, and
otherwise the analysis and coach response are returned with status 200. -/
def fnDoPost (user_id : Option String) (messages : List JMsg)
    (store : Except String (List Trade)) (g : GenOutcome) : HttpOut :=
  if user_id = none ∨ user_id = some "" then .errOut 400 "Missing user_id"
  else
    match (messages.reverse.find? (fun m => m.role = some "user")).bind JMsg.content with
    | none => .errOut 400 "No user message found"
    | some lastMessage =>
      if lastMessage = "" then .errOut 400 "No user message found"
      else
        match store with
        | .error e => .errOut 500 e
        | .ok trades =>
          let analysis := fnAnalyzeTrades trades
          .okOut 200 (fnGenerateCoachResponse lastMessage analysis g) analysis

/-! ## Basic structural lemmas -/

theorem analyzeCore_win_rate (trades sampled : List Trade) :
    (analyzeCore trades sampled).win_rate = winRateOf trades := rfl

theorem analyzeCore_avg (trades sampled : List Trade) :
    (analyzeCore trades sampled).avg_profit_loss = avgPnlOf trades := rfl

theorem analyzeCore_strategies (trades sampled : List Trade) :
    (analyzeCore trades sampled).strategies = (topStrategies trades).take 5 := rfl

theorem fnAnalyzeTrades_of_ne (trades : List Trade) (h : trades ≠ []) :
    fnAnalyzeTrades trades = analyzeCore trades (trades.take (min 50 trades.length)) := by
  simp [fnAnalyzeTrades, h]

theorem appAnalyzeTrades_of_ne (trades rnd : List Trade) (h : trades ≠ []) :
    appAnalyzeTrades trades rnd = analyzeCore trades
      (if trades.length ≤ min 50 trades.length then trades.take (min 50 trades.length)
       else rnd) := by
  simp [appAnalyzeTrades, h]

/-- The two implementations of `analyze_trades` agree whenever the input has
at most 50 records, because `app.py` then also samples `trades[:sample_size]`. -/
theorem analyze_agree (trades rnd : List Trade) (h : trades.length ≤ 50) :
    appAnalyzeTrades trades rnd = fnAnalyzeTrades trades := by
  by_cases he : trades = []
  · simp [he, appAnalyzeTrades, fnAnalyzeTrades]
  · rw [appAnalyzeTrades_of_ne trades rnd he, fnAnalyzeTrades_of_ne trades he,
      if_pos (by omega)]

theorem analyzeCore_caps (trades sampled : List Trade) :
    (analyzeCore trades sampled).strategies.length ≤ 5 ∧
    (analyzeCore trades sampled).strengths.length ≤ 3 ∧
    (analyzeCore trades sampled).weaknesses.length ≤ 3 ∧
    (analyzeCore trades sampled).suggestions.length ≤ 3 := by
  refine ⟨?_, ?_, ?_, ?_⟩ <;> exact List.length_take_le _ _

theorem fnAnalyzeTrades_caps (trades : List Trade) :
    (fnAnalyzeTrades trades).strategies.length ≤ 5 ∧
    (fnAnalyzeTrades trades).strengths.length ≤ 3 ∧
    (fnAnalyzeTrades trades).weaknesses.length ≤ 3 ∧
    (fnAnalyzeTrades trades).suggestions.length ≤ 3 := by
  by_cases he : trades = []
  · simp [he, fnAnalyzeTrades, emptyAnalysis]
  · rw [fnAnalyzeTrades_of_ne trades he]; exact analyzeCore_caps _ _

theorem appAnalyzeTrades_caps (trades rnd : List Trade) :
    (appAnalyzeTrades trades rnd).strategies.length ≤ 5 ∧
    (appAnalyzeTrades trades rnd).strengths.length ≤ 3 ∧
    (appAnalyzeTrades trades rnd).weaknesses.length ≤ 3 ∧
    (appAnalyzeTrades trades rnd).suggestions.length ≤ 3 := by
  by_cases he : trades = []
  · simp [he, appAnalyzeTrades, emptyAnalysis]
  · rw [appAnalyzeTrades_of_ne trades rnd he]; exact analyzeCore_caps _ _

/-- The HTTP-boundary re-truncation is the identity on any result already
within the caps. -/
theorem retruncate_eq_self {a : AnalysisResult}
    (h1 : a.strategies.length ≤ 5) (h2 : a.strengths.length ≤ 3)
    (h3 : a.weaknesses.length ≤ 3) (h4 : a.suggestions.length ≤ 3) :
    retruncate a = a := by
  have e1 : ¬ 5 < a.strategies.length := by omega
  have e2 : ¬ 3 < a.strengths.length := by omega
  have e3 : ¬ 3 < a.weaknesses.length := by omega
  have e4 : ¬ 3 < a.suggestions.length := by omega
  simp [retruncate, e1, e2, e3, e4]

theorem strContains_iff {s pat : String} :
    strContains s pat = true ↔ pat.data <:+: s.data := by
  simp [strContains]

theorem list_sum_nonpos : ∀ {l : List ℚ}, (∀ x ∈ l, x ≤ 0) → l.sum ≤ 0 := by
  intro l h
  induction l with
  | nil => simp
  | cons a t ih =>
    rw [List.sum_cons]
    have ha := h a (by simp)
    have ht := ih (fun x hx => h x (by simp [hx]))
    linarith

theorem mem_notesOf {sampled : List Trade} {t : Trade} {s : String}
    (ht : t ∈ sampled) (hn : t.notes = some s) (hs : s ≠ "") :
    s ∈ notesOf sampled := by
  rw [notesOf, List.mem_filterMap]
  exact ⟨t, ht, by rw [hn]; simp [hs]⟩

theorem infix_joinSep (sep : String) {x : String} {parts : List String}
    (hx : x ∈ parts) : x.data <:+: (joinSep sep parts).data := by
  induction parts with
  | nil => cases hx
  | cons p ps ih =>
    cases ps with
    | nil =>
      rcases List.mem_cons.mp hx with rfl | h0
      · exact List.infix_rfl
      · cases h0
    | cons q qs =>
      rcases List.mem_cons.mp hx with rfl | h2
      · simp only [joinSep, String.data_append]
        rw [List.append_assoc]
        exact (List.prefix_append _ _).isInfix
      · have h3 := ih h2
        simp only [joinSep, String.data_append]
        exact h3.trans (List.suffix_append _ _).isInfix

/-- A helper for C4: whenever the (already capped) strategies list has more
than two entries, the diversity message built from its length survives the
3-cap on `strengths`, because at most two rule messages precede it. -/
theorem analyzeCore_diverse_mem (trades sampled : List Trade)
    (h : 2 < (topStrategies trades).length) :
    ("Diverse trading approaches (" ++ toString (topStrategies trades).length ++
      " different strategies)") ∈ (analyzeCore trades sampled).strengths := by
  by_cases c1 : (2 : ℚ)⁻¹ < winRateOf trades <;>
    by_cases c2 : 0 < avgPnlOf trades <;>
      cases hp : planningFlag sampled <;>
        simp [analyzeCore, c1, c2, h, hp]

/-! ## The strategy grouping: `strategies_count` as an explicit
first-appearance count table -/

theorem bump_not_mem {acc : List (String × Nat)} {s : String}
    (h : s ∉ acc.map Prod.fst) : bump acc s = acc ++ [(s, 1)] := by
  induction acc with
  | nil => rfl
  | cons p rest ih =>
    obtain ⟨k, c⟩ := p
    simp only [List.map_cons, List.mem_cons, not_or] at h
    have hne : ¬ k = s := fun hk => h.1 hk.symm
    simp only [bump, if_neg hne, List.cons_append, ih h.2]

theorem keys_bump_of_mem {acc : List (String × Nat)} {s : String}
    (h : s ∈ acc.map Prod.fst) : (bump acc s).map Prod.fst = acc.map Prod.fst := by
  induction acc with
  | nil => simp at h
  | cons p rest ih =>
    obtain ⟨k, c⟩ := p
    by_cases hk : k = s
    · subst hk; simp [bump]
    · have hs : s ∈ rest.map Prod.fst := by
        simp only [List.map_cons, List.mem_cons] at h
        rcases h with h | h
        · exact absurd h.symm hk
        · exact h
      simp [bump, hk, ih hs]

theorem map_bump_of_mem (T : List String) {acc : List (String × Nat)} {s : String}
    (nd : (acc.map Prod.fst).Nodup) (h : s ∈ acc.map Prod.fst) :
    (bump acc s).map (fun p => (p.1, p.2 + T.count p.1)) =
      acc.map (fun p => (p.1, p.2 + (s :: T).count p.1)) := by
  induction acc with
  | nil => simp at h
  | cons p rest ih =>
    obtain ⟨k, c⟩ := p
    simp only [List.map_cons, List.nodup_cons] at nd
    by_cases hk : k = s
    · subst hk
      simp only [bump, if_pos rfl, if_true, List.map_cons, List.count_cons_self]
      have harith : c + 1 + T.count k = c + (T.count k + 1) := by omega
      rw [harith]
      congr 1
      · refine List.map_congr_left (fun q hq => ?_)
        have hne : q.1 ≠ k := by
          intro he
          exact nd.1 (he ▸ List.mem_map_of_mem Prod.fst hq)
        rw [List.count_cons_of_ne hne]
    · have hs : s ∈ rest.map Prod.fst := by
        simp only [List.map_cons, List.mem_cons] at h
        rcases h with h | h
        · exact absurd h.symm hk
        · exact h
      simp only [bump, if_neg hk, List.map_cons]
      congr 1
      · rw [List.count_cons_of_ne hk]
      · exact ih nd.2 hs

theorem mem_firstOccs {a : String} : ∀ {l : List String}, a ∈ firstOccs l ↔ a ∈ l := by
  intro l
  induction l using firstOccs.induct with
  | case1 => simp [firstOccs]
  | case2 s rest ih =>
    simp only [firstOccs, List.mem_cons]
    by_cases ha : a = s
    · simp [ha]
    · simp only [ha, false_or]
      rw [ih, List.mem_filter]
      simp [ha]

theorem nodup_firstOccs : ∀ (l : List String), (firstOccs l).Nodup := by
  intro l
  induction l using firstOccs.induct with
  | case1 => simp [firstOccs]
  | case2 s rest ih =>
    simp only [firstOccs, List.nodup_cons]
    refine ⟨fun hmem => ?_, ih⟩
    have h1 := mem_firstOccs.mp hmem
    have h2 := List.of_mem_filter h1
    simp at h2

theorem lookup_map_graph {f : String → Nat} : ∀ {l : List String} {s : String},
    s ∈ l → (l.map (fun x => (x, f x))).lookup s = some (f s) := by
  intro l
  induction l with
  | nil => intro s h; cases h
  | cons k rest ih =>
    intro s hs
    by_cases hk : s = k
    · subst hk; simp [List.lookup]
    · have hb : (s == k) = false := by simp [hk]
      simp only [List.map_cons, List.lookup, hb]
      refine ih ?_
      rcases List.mem_cons.mp hs with h | h
      · exact absurd h hk
      · exact h

theorem map_fst_countsOf (M : List String) :
    (countsOf M).map Prod.fst = firstOccs M := by
  rw [countsOf, List.map_map]
  exact List.map_id'' (fun x => rfl) _

theorem countOf_countsOf {M : List String} {s : String} (h : s ∈ firstOccs M) :
    countOf (countsOf M) s = M.count s := by
  rw [countOf, countsOf, lookup_map_graph h]
  rfl

theorem countsOf_cons (s : String) (R : List String) :
    countsOf (s :: R) = (s, R.count s + 1) ::
      (firstOccs (R.filter (fun x => x ≠ s))).map (fun x => (x, R.count x)) := by
  rw [countsOf]
  simp only [firstOccs, List.map_cons, List.count_cons_self]
  congr 1
  refine List.map_congr_left (fun x hx => ?_)
  have hxR := mem_firstOccs.mp hx
  have hxne : x ≠ s := by
    have := List.of_mem_filter hxR
    simpa using this
  rw [List.count_cons_of_ne hxne]

/-- The central characterisation of the `strategies_count` loop: folding
`bump` over the label sequence starting from a duplicate-free table adds the
occurrence counts to the existing entries and appends the table of the new
labels, in first-appearance order. -/
theorem foldl_bump_eq (L : List String) : ∀ acc : List (String × Nat),
    (acc.map Prod.fst).Nodup →
    L.foldl bump acc =
      acc.map (fun p => (p.1, p.2 + L.count p.1)) ++
      countsOf (L.filter (fun x => decide (x ∉ acc.map Prod.fst))) := by
  induction L with
  | nil =>
    intro acc nd
    simp [countsOf, firstOccs]
  | cons s T ih =>
    intro acc nd
    rw [List.foldl_cons]
    by_cases hm : s ∈ acc.map Prod.fst
    · rw [ih (bump acc s) (by rw [keys_bump_of_mem hm]; exact nd)]
      rw [map_bump_of_mem T nd hm, keys_bump_of_mem hm]
      congr 1
      rw [List.filter_cons, if_neg (by simp [hm])]
    · rw [bump_not_mem hm]
      have hkeys : ((acc ++ [(s, 1)]).map Prod.fst) = acc.map Prod.fst ++ [s] := by simp
      have nd2 : ((acc ++ [(s, 1)]).map Prod.fst).Nodup := by
        rw [hkeys]
        refine List.Nodup.append nd (List.nodup_singleton s) ?_
        intro x hx hxs
        rw [List.mem_singleton] at hxs
        exact hm (hxs ▸ hx)
      rw [ih _ nd2, hkeys]
      rw [List.filter_cons, if_pos (by simp [hm]), countsOf_cons]
      rw [List.map_append]
      have hR : T.filter (fun x => decide (x ∉ (acc.map Prod.fst ++ [s]))) =
          (T.filter (fun x => decide (x ∉ acc.map Prod.fst))).filter
            (fun x => decide (x ≠ s)) := by
        rw [List.filter_filter]
        refine List.filter_congr (fun x hx => ?_)
        by_cases h1 : x = s <;> by_cases h2 : x ∈ acc.map Prod.fst <;> simp [h1, h2]
      rw [hR]
      have hacc : acc.map (fun p => (p.1, p.2 + T.count p.1)) =
          acc.map (fun p => (p.1, p.2 + (s :: T).count p.1)) := by
        refine List.map_congr_left (fun q hq => ?_)
        have hq1 : q.1 ≠ s := fun he => hm (he ▸ List.mem_map_of_mem Prod.fst hq)
        rw [List.count_cons_of_ne hq1]
      rw [hacc, List.append_assoc]
      congr 1
      have hcnt : (T.filter (fun x => decide (x ∉ acc.map Prod.fst))).count s = T.count s :=
        List.count_filter (by simp [hm])
      rw [countsOf]
      simp only [List.map_cons, List.map_nil, List.singleton_append]
      congr 1
      · rw [hcnt]
        simp only [Prod.mk.injEq, true_and]
        omega
      · refine List.map_congr_left (fun x hx => ?_)
        have hxmem := mem_firstOccs.mp hx
        have hxne : x ≠ s := by
          have := List.of_mem_filter hxmem
          simpa using this
        rw [List.count_filter (by simpa using hxne)]

theorem strategyCounts_eq_foldl (trades : List Trade) :
    strategyCounts trades = (labelList trades).foldl bump [] := by
  rw [strategyCounts]
  suffices h : ∀ acc, trades.foldl (fun acc t =>
      let s := strTrim (t.trade_type.getD "")
      if s = "" then acc else bump acc s) acc = (labelList trades).foldl bump acc from h []
  induction trades with
  | nil => intro acc; simp [labelList]
  | cons t tr ih =>
    intro acc
    have hlab : labelList (t :: tr) =
        (if strTrim (t.trade_type.getD "") = "" then labelList tr
         else strTrim (t.trade_type.getD "") :: labelList tr) := by
      simp only [labelList, List.map_cons, List.filter_cons]
      by_cases hs : strTrim (t.trade_type.getD "") = "" <;> simp [hs]
    rw [List.foldl_cons, hlab]
    by_cases hs : strTrim (t.trade_type.getD "") = ""
    · rw [if_pos hs, if_pos hs]
      exact ih acc
    · rw [if_neg hs, if_neg hs]
      rw [ih, List.foldl_cons]

theorem strategyCounts_eq_countsOf (trades : List Trade) :
    strategyCounts trades = countsOf (labelList trades) := by
  rw [strategyCounts_eq_foldl, foldl_bump_eq _ [] (by simp)]
  simp

theorem keys_strategyCounts (trades : List Trade) :
    (strategyCounts trades).map Prod.fst = firstOccs (labelList trades) := by
  rw [strategyCounts_eq_countsOf, map_fst_countsOf]

theorem topStrategies_eq_take (trades : List Trade) :
    topStrategies trades = (((strategyCounts trades).map Prod.fst).mergeSort
      (fun a b => decide (countOf (strategyCounts trades) b ≤
        countOf (strategyCounts trades) a))).take 5 := rfl

/-! ## Claims C1, C2, C3, C8, C10 -/

/-- C1: for every non-empty trade list, in both implementations, `win_rate`
is the exact fraction of records with `pnl > 0` (absent `pnl` read as `0`),
it lies in `[0, 1]`, and `avg_profit_loss` is the mean `pnl`. -/
theorem C1_win_rate_avg (trades rnd : List Trade) (h : trades ≠ []) :
    (fnAnalyzeTrades trades).win_rate =
      ((trades.filter (fun t => decide (0 < t.pnlVal))).length : ℚ) / (trades.length : ℚ) ∧
    0 ≤ (fnAnalyzeTrades trades).win_rate ∧
    (fnAnalyzeTrades trades).win_rate ≤ 1 ∧
    (fnAnalyzeTrades trades).avg_profit_loss =
      ((trades.map Trade.pnlVal).sum) / (trades.length : ℚ) ∧
    (appAnalyzeTrades trades rnd).win_rate = (fnAnalyzeTrades trades).win_rate ∧
    (appAnalyzeTrades trades rnd).avg_profit_loss =
      (fnAnalyzeTrades trades).avg_profit_loss := by
  have hn : (0 : ℚ) < (trades.length : ℚ) := by
    exact_mod_cast List.length_pos.mpr h
  have hw : (fnAnalyzeTrades trades).win_rate =
      ((trades.countP (fun t => decide (0 < t.pnlVal))) : ℚ) / (trades.length : ℚ) := by
    rw [fnAnalyzeTrades_of_ne trades h, analyzeCore_win_rate, winRateOf, if_neg h]
  constructor
  · rw [hw, List.countP_eq_length_filter]
  refine ⟨?_, ?_, ?_, ?_, ?_⟩
  · rw [hw]; positivity
  · rw [hw, div_le_one hn]
    exact_mod_cast List.countP_le_length _
  · rw [fnAnalyzeTrades_of_ne trades h, analyzeCore_avg, avgPnlOf, if_neg h]
  · rw [fnAnalyzeTrades_of_ne trades h, appAnalyzeTrades_of_ne trades rnd h,
      analyzeCore_win_rate, analyzeCore_win_rate]
  · rw [fnAnalyzeTrades_of_ne trades h, appAnalyzeTrades_of_ne trades rnd h,
      analyzeCore_avg, analyzeCore_avg]

theorem C1_win_rate_avg_witness :
    ([({ pnl := some 5 } : Trade)] ≠ ([] : List Trade)) ∧
    (fnAnalyzeTrades [{ pnl := some 5 }]).win_rate = 1 := by
  refine ⟨by decide, ?_⟩
  rw [(C1_win_rate_avg [{ pnl := some 5 }] [] (by decide)).1]
  norm_num [Trade.pnlVal]

/-- C2: the empty input yields exactly the degenerate result, in both
implementations. -/
theorem C2_empty_input (rnd : List Trade) :
    fnAnalyzeTrades [] =
      { win_rate := 0, avg_profit_loss := 0, strategies := [], strengths := [],
        weaknesses := [],
        suggestions := ["Start recording your trades to get personalized analysis."] } ∧
    appAnalyzeTrades [] rnd = fnAnalyzeTrades [] := ⟨rfl, rfl⟩

/-- C3: every result of `analyze_trades` respects the caps 5/3/3/3 on its
four list fields, and the HTTP-boundary re-truncation step leaves each such
result unchanged. -/
theorem C3_caps_and_idempotent_retruncation (trades rnd : List Trade) :
    ((fnAnalyzeTrades trades).strategies.length ≤ 5 ∧
     (fnAnalyzeTrades trades).strengths.length ≤ 3 ∧
     (fnAnalyzeTrades trades).weaknesses.length ≤ 3 ∧
     (fnAnalyzeTrades trades).suggestions.length ≤ 3) ∧
    ((appAnalyzeTrades trades rnd).strategies.length ≤ 5 ∧
     (appAnalyzeTrades trades rnd).strengths.length ≤ 3 ∧
     (appAnalyzeTrades trades rnd).weaknesses.length ≤ 3 ∧
     (appAnalyzeTrades trades rnd).suggestions.length ≤ 3) ∧
    retruncate (fnAnalyzeTrades trades) = fnAnalyzeTrades trades ∧
    retruncate (appAnalyzeTrades trades rnd) = appAnalyzeTrades trades rnd := by
  obtain ⟨f1, f2, f3, f4⟩ := fnAnalyzeTrades_caps trades
  obtain ⟨a1, a2, a3, a4⟩ := appAnalyzeTrades_caps trades rnd
  exact ⟨⟨f1, f2, f3, f4⟩, ⟨a1, a2, a3, a4⟩,
    retruncate_eq_self f1 f2 f3 f4, retruncate_eq_self a1 a2 a3 a4⟩

/-- C8: `generate_coach_response` absorbs every generation-backend failure:
a raised exception or a missing model yields the fixed trouble sentence in
`app.py` and the template-path string in `trade-analysis.py`; no error
propagates to the caller. -/
theorem C8_backend_failure_absorbed (msg : String) (a : AnalysisResult) :
    appGenerateCoachResponse msg a .err =
      "I'm having trouble analyzing your trades right now. Please try again later." ∧
    appGenerateCoachResponse msg a .noModel =
      "I'm having trouble analyzing your trades right now. Please try again later." ∧
    fnGenerateCoachResponse msg a .err = templateResponse msg a ∧
    fnGenerateCoachResponse msg a .noModel = templateResponse msg a :=
  ⟨rfl, rfl, rfl, rfl⟩

/-- C10: on inputs of at most 50 records the two `analyze_trades`
implementations return identical results (all six fields), independently of
the random sample parameter, since the notes sample is then the whole list. -/
theorem C10_implementations_agree (trades rnd : List Trade) (h : trades.length ≤ 50) :
    appAnalyzeTrades trades rnd = fnAnalyzeTrades trades :=
  analyze_agree trades rnd h

theorem C10_implementations_agree_witness :
    ([({ pnl := some 3 } : Trade)].length ≤ 50) ∧
    appAnalyzeTrades [{ pnl := some 3 }] [] = fnAnalyzeTrades [{ pnl := some 3 }] :=
  ⟨by decide, C10_implementations_agree [{ pnl := some 3 }] [] (by decide)⟩

/-! ## Claims C6 and C7 -/

/-- C6 counterexample: called with a completion whose extracted part is
empty, the `app.py` implementation returns its fixed fallback sentence,
which is not the keyword-matched template-path string (produced here by the
`trade-analysis.py` implementation on the same input). -/
theorem C6_app_fixed_fallback_counterexample :
    appGenerateCoachResponse "what should i improve" emptyAnalysis (.ok "") =
      "Based on your trading performance, I recommend focusing on consistency and keeping detailed trade notes to identify patterns." ∧
    fnGenerateCoachResponse "what should i improve" emptyAnalysis (.ok "") =
      "Based on your trading data, I recommend: Start recording your trades to get personalized analysis." ∧
    appGenerateCoachResponse "what should i improve" emptyAnalysis (.ok "") ≠
      fnGenerateCoachResponse "what should i improve" emptyAnalysis (.ok "") := by
  refine ⟨?_, ?_, ?_⟩ <;> decide

/-- C6 (amended): when the backend returns a completion whose extracted part
(text after the last marker, trimmed) is empty or shorter than 10
characters, both implementations fall back deterministically — the
serverless one to the keyword-matched template path, the FastAPI one to a
fixed fallback sentence. -/
theorem C6_short_extraction_falls_back (msg t : String) (a : AnalysisResult)
    (h : extractAdvice t = "" ∨ (extractAdvice t).length < 10) :
    fnGenerateCoachResponse msg a (.ok t) = templateResponse msg a ∧
    appGenerateCoachResponse msg a (.ok t) =
      "Based on your trading performance, I recommend focusing on consistency and keeping detailed trade notes to identify patterns." := by
  constructor
  · unfold fnGenerateCoachResponse
    rcases h with h | h
    · simp [h]
    · have : ¬ 10 ≤ (extractAdvice t).length := by omega
      simp [this]
  · unfold appGenerateCoachResponse
    rcases h with h | h
    · simp [h]
    · simp [h]

theorem C6_short_extraction_falls_back_witness :
    (extractAdvice "" = "" ∨ (extractAdvice "").length < 10) ∧
    (fnGenerateCoachResponse "hello coach" emptyAnalysis (.ok "") =
      templateResponse "hello coach" emptyAnalysis ∧
     appGenerateCoachResponse "hello coach" emptyAnalysis (.ok "") =
      "Based on your trading performance, I recommend focusing on consistency and keeping detailed trade notes to identify patterns.") :=
  ⟨Or.inl (by decide),
   C6_short_extraction_falls_back "hello coach" "" emptyAnalysis (Or.inl (by decide))⟩

/-- C7 counterexample: a chat request with a `user_id` whose messages hold
no `role == "user"` entry gets HTTP 200 (with a plain message body) from the
FastAPI endpoint, not 400. -/
theorem C7_chat_returns_200_counterexample :
    appChat { messages := [{ role := "assistant", content := "hello" }], user_id := "user-1" }
        (.ok []) [] .err =
      .msgOnly 200 "I didn't receive a message to respond to." ∧
    (appChat { messages := [{ role := "assistant", content := "hello" }], user_id := "user-1" }
        (.ok []) [] .err).status ≠ 400 := by
  refine ⟨?_, ?_⟩ <;> decide

/-- C7 (amended): on a chat request with a `user_id` but no `role == "user"`
message, the serverless handler responds 400 with "No user message found",
while the FastAPI endpoint responds 200 with a plain apology body. -/
theorem C7_no_user_message (uid : String) (msgs : List JMsg) (req : ChatRequest)
    (store : Except String (List Trade)) (rnd : List Trade) (g : GenOutcome)
    (huid : uid ≠ "")
    (hfn : ∀ m ∈ msgs, m.role ≠ some "user")
    (happ : ∀ m ∈ req.messages, m.role ≠ "user") :
    fnDoPost (some uid) msgs store g = .errOut 400 "No user message found" ∧
    appChat req store rnd g = .msgOnly 200 "I didn't receive a message to respond to." := by
  have h1 : msgs.reverse.find? (fun m => decide (m.role = some "user")) = none := by
    rw [List.find?_eq_none]
    intro m hm
    simp [hfn m (List.mem_reverse.mp hm)]
  have h2 : req.messages.reverse.find? (fun m => decide (m.role = "user")) = none := by
    rw [List.find?_eq_none]
    intro m hm
    simp [happ m (List.mem_reverse.mp hm)]
  constructor
  · unfold fnDoPost
    rw [if_neg (by simp [huid])]
    simp [h1]
  · unfold appChat
    simp [h2]

/-! ## Claims C4 and C5 -/

unseal Nat.gcd Rat.mul Rat.inv Rat.add Rat.sub List.merge List.mergeSort in
/-- C4 counterexample: on six trades with six distinct labels the embedded
count is 5 (the post-truncation length), not the pre-truncation distinct
count 6, because `strategies` is capped to 5 before the message is built. -/
theorem C4_precap_count_counterexample :
    (fnAnalyzeTrades [⟨some "s1", none, none⟩, ⟨some "s2", none, none⟩,
        ⟨some "s3", none, none⟩, ⟨some "s4", none, none⟩, ⟨some "s5", none, none⟩,
        ⟨some "s6", none, none⟩]).strengths =
      ["Diverse trading approaches (5 different strategies)"] ∧
    "Diverse trading approaches (6 different strategies)" ∉
      (fnAnalyzeTrades [⟨some "s1", none, none⟩, ⟨some "s2", none, none⟩,
        ⟨some "s3", none, none⟩, ⟨some "s4", none, none⟩, ⟨some "s5", none, none⟩,
        ⟨some "s6", none, none⟩]).strengths := by
  refine ⟨?_, ?_⟩ <;> decide

/-- C4 (amended): whenever the capped strategies list has more than two
entries, both implementations append the diversity message whose embedded
count is the length of the already-5-capped strategies list (so at most 5),
and that message always survives the 3-cap on `strengths`. -/
theorem C4_diverse_message_capped_count (trades rnd : List Trade)
    (h : 2 < (topStrategies trades).length) :
    ("Diverse trading approaches (" ++ toString (topStrategies trades).length ++
      " different strategies)") ∈ (fnAnalyzeTrades trades).strengths ∧
    ("Diverse trading approaches (" ++ toString (topStrategies trades).length ++
      " different strategies)") ∈ (appAnalyzeTrades trades rnd).strengths ∧
    (topStrategies trades).length ≤ 5 := by
  have hne : trades ≠ [] := by
    intro he; subst he
    have h0 : topStrategies ([] : List Trade) = [] := by
      simp [topStrategies, strategyCounts]
    rw [h0] at h; exact absurd h (by decide)
  refine ⟨?_, ?_, List.length_take_le _ _⟩
  · rw [fnAnalyzeTrades_of_ne trades hne]
    exact analyzeCore_diverse_mem trades _ h
  · rw [appAnalyzeTrades_of_ne trades rnd hne]
    exact analyzeCore_diverse_mem trades _ h

unseal Nat.gcd Rat.mul Rat.inv Rat.add Rat.sub List.merge List.mergeSort in
theorem C4_diverse_message_capped_count_witness :
    (2 < (topStrategies [⟨some "a", none, none⟩, ⟨some "b", none, none⟩,
        ⟨some "c", none, none⟩]).length) ∧
    ("Diverse trading approaches (" ++
      toString (topStrategies [⟨some "a", none, none⟩, ⟨some "b", none, none⟩,
        ⟨some "c", none, none⟩]).length ++ " different strategies)") ∈
      (fnAnalyzeTrades [⟨some "a", none, none⟩, ⟨some "b", none, none⟩,
        ⟨some "c", none, none⟩]).strengths :=
  ⟨by decide,
   (C4_diverse_message_capped_count [⟨some "a", none, none⟩, ⟨some "b", none, none⟩,
      ⟨some "c", none, none⟩] [] (by decide)).1⟩

unseal Nat.gcd Rat.mul Rat.inv Rat.add Rat.sub List.merge List.mergeSort in
/-- C5 counterexample: one losing trade whose notes report felt fear.  The
weaknesses list does contain both expected entries, but the suggestions list
does not contain "Work on emotional discipline during trading": it is the
fourth suggestion appended and the 3-cap truncates it away, since with at
most two distinct strategies the diversification suggestion fires first. -/
theorem C5_emotional_suggestion_truncated_counterexample :
    "Below 50% win rate" ∈
      (fnAnalyzeTrades [⟨none, some (-1), some "I felt fear during this trade"⟩]).weaknesses ∧
    "Emotional trading noted in multiple trades" ∈
      (fnAnalyzeTrades [⟨none, some (-1), some "I felt fear during this trade"⟩]).weaknesses ∧
    "Work on emotional discipline during trading" ∉
      (fnAnalyzeTrades [⟨none, some (-1), some "I felt fear during this trade"⟩]).suggestions ∧
    "Work on emotional discipline during trading" ∉
      (appAnalyzeTrades [⟨none, some (-1), some "I felt fear during this trade"⟩]
        []).suggestions := by
  refine ⟨?_, ?_, ?_, ?_⟩ <;> decide

/-- C5 (amended): for a non-empty list of at most 50 records, all with
`pnl ≤ 0` and some notes containing "I felt fear during this trade", the
weaknesses list contains "Below 50% win rate" and "Emotional trading noted
in multiple trades"; the suggestions list contains "Work on emotional
discipline during trading" exactly when the strategies list has more than
two entries (otherwise the 3-cap truncates it away); and `app.py` returns
the same result. -/
theorem C5_fear_notes (trades rnd : List Trade)
    (hne : trades ≠ []) (hlen : trades.length ≤ 50)
    (hpnl : ∀ t ∈ trades, t.pnlVal ≤ 0)
    (hfear : ∃ t ∈ trades, ∃ s, t.notes = some s ∧
      strContains s "I felt fear during this trade" = true) :
    "Below 50% win rate" ∈ (fnAnalyzeTrades trades).weaknesses ∧
    "Emotional trading noted in multiple trades" ∈ (fnAnalyzeTrades trades).weaknesses ∧
    ("Work on emotional discipline during trading" ∈ (fnAnalyzeTrades trades).suggestions ↔
      2 < (fnAnalyzeTrades trades).strategies.length) ∧
    appAnalyzeTrades trades rnd = fnAnalyzeTrades trades := by
  -- the sample is the whole input
  have hsmp : trades.take (min 50 trades.length) = trades := by
    have : min 50 trades.length = trades.length := by omega
    rw [this, List.take_length]
  -- the win rate is zero, so the first rule fires its else-branch
  have hcount : trades.countP (fun t => decide (0 < t.pnlVal)) = 0 := by
    rw [List.countP_eq_zero]
    intro t ht
    simpa using not_lt.mpr (hpnl t ht)
  have hwr : winRateOf trades = 0 := by
    rw [winRateOf, if_neg hne, hcount]; simp
  have c1 : ¬ (2 : ℚ)⁻¹ < winRateOf trades := by rw [hwr]; norm_num
  -- the average pnl is nonpositive, so the second rule fires its else-branch
  have hsum : (trades.map Trade.pnlVal).sum ≤ 0 := by
    apply list_sum_nonpos
    intro q hq
    obtain ⟨t, ht, rfl⟩ := List.mem_map.mp hq
    exact hpnl t ht
  have c2 : ¬ 0 < avgPnlOf trades := by
    rw [avgPnlOf, if_neg hne]
    exact not_lt.mpr (div_nonpos_iff.mpr (Or.inr ⟨hsum, Nat.cast_nonneg _⟩))
  -- the joined lower-cased notes contain "fear"
  obtain ⟨t, ht, s, hnotes, hcont⟩ := hfear
  have hsent : ("I felt fear during this trade").data <:+: s.data := strContains_iff.mp hcont
  have hfear4 : ("fear").data <:+: ("I felt fear during this trade").data := by decide
  have h1 : ("fear").data <:+: s.data := hfear4.trans hsent
  have hsne : s ≠ "" := by
    intro h0; subst h0
    exact absurd h1.length_le (by decide)
  have h2 : ("fear").data <:+: (allNotesOf trades).data :=
    h1.trans (infix_joinSep " " (mem_notesOf ht hnotes hsne))
  have h3 : ("fear").data <:+: (strLower (allNotesOf trades)).data := by
    have hm := h2.map Char.toLower
    rw [show ("fear").data.map Char.toLower = ("fear").data by decide] at hm
    exact hm
  have h4 : strContains (strLower (allNotesOf trades)) "fear" = true := strContains_iff.mpr h3
  have h5 : allNotesOf trades ≠ "" := by
    intro h0; rw [h0] at h2
    exact absurd h2.length_le (by decide)
  have hemo : emotionalFlag trades = true := by
    simp [emotionalFlag, h4, h5]
  have happ : appAnalyzeTrades trades rnd = fnAnalyzeTrades trades := analyze_agree trades rnd hlen
  rw [fnAnalyzeTrades_of_ne trades hne, hsmp]
  refine ⟨?_, ?_, ?_, by rw [happ, fnAnalyzeTrades_of_ne trades hne, hsmp]⟩
  · simp [analyzeCore, c1, c2, hemo]
  · simp [analyzeCore, c1, c2, hemo]
  · by_cases hd : 2 < (topStrategies trades).length
    · have h5le : (topStrategies trades).length ≤ 5 := List.length_take_le _ _
      simp [analyzeCore, c1, c2, hemo, hd, List.take_of_length_le h5le]
    · have h5le : (topStrategies trades).length ≤ 5 := List.length_take_le _ _
      simp [analyzeCore, c1, c2, hemo, hd, List.take_of_length_le h5le]

unseal Nat.gcd Rat.mul Rat.inv Rat.add Rat.sub List.merge List.mergeSort in
theorem C5_fear_notes_witness :
    (∃ t ∈ [(⟨some " a ", some (-1), some "I felt fear during this trade"⟩ : Trade),
        ⟨some "b", some 0, none⟩, ⟨some "c", none, none⟩], ∃ s, t.notes = some s ∧
      strContains s "I felt fear during this trade" = true) ∧
    "Emotional trading noted in multiple trades" ∈
      (fnAnalyzeTrades [⟨some " a ", some (-1), some "I felt fear during this trade"⟩,
        ⟨some "b", some 0, none⟩, ⟨some "c", none, none⟩]).weaknesses ∧
    "Work on emotional discipline during trading" ∈
      (fnAnalyzeTrades [⟨some " a ", some (-1), some "I felt fear during this trade"⟩,
        ⟨some "b", some 0, none⟩, ⟨some "c", none, none⟩]).suggestions := by
  have hfear : ∃ t ∈ [(⟨some " a ", some (-1), some "I felt fear during this trade"⟩ : Trade),
      ⟨some "b", some 0, none⟩, ⟨some "c", none, none⟩], ∃ s, t.notes = some s ∧
      strContains s "I felt fear during this trade" = true :=
    ⟨⟨some " a ", some (-1), some "I felt fear during this trade"⟩,
      List.mem_cons_self _ _, "I felt fear during this trade", rfl, by decide⟩
  have h := C5_fear_notes
    [⟨some " a ", some (-1), some "I felt fear during this trade"⟩,
      ⟨some "b", some 0, none⟩, ⟨some "c", none, none⟩] []
    (by decide) (by decide) (by decide) hfear
  exact ⟨hfear, h.2.1, h.2.2.1.mpr (by decide)⟩

theorem C7_no_user_message_witness :
    (("user-1" : String) ≠ "") ∧
    (∀ m ∈ [({ role := some "assistant", content := some "hello" } : JMsg)],
      m.role ≠ some "user") ∧
    (∀ m ∈ [({ role := "assistant", content := "hello" } : Message)], m.role ≠ "user") ∧
    (fnDoPost (some "user-1") [{ role := some "assistant", content := some "hello" }]
        (.ok []) .err = .errOut 400 "No user message found" ∧
     appChat { messages := [{ role := "assistant", content := "hello" }], user_id := "user-1" }
        (.ok []) [] .err = .msgOnly 200 "I didn't receive a message to respond to.") :=
  ⟨by decide, by decide, by decide,
   C7_no_user_message "user-1" [{ role := some "assistant", content := some "hello" }]
     { messages := [{ role := "assistant", content := "hello" }], user_id := "user-1" }
     (.ok []) [] .err (by decide) (by decide) (by decide)⟩

/-! ## Claim C9 -/

/-- C9: in both implementations the `strategies` field is the first five
elements of a list holding exactly the distinct trimmed non-empty
`trade_type` labels (records with an empty trimmed label are skipped),
ordered by descending group size, with equal-sized groups kept in the order
of the label's first appearance in the input. -/
theorem C9_strategies_ordering (trades rnd : List Trade) :
    ∃ σ : List String,
      σ.Nodup ∧
      (∀ s, s ∈ σ ↔ s ∈ labelList trades) ∧
      σ.Pairwise (fun a b => (labelList trades).count b ≤ (labelList trades).count a) ∧
      (∀ a b, (labelList trades).count a = (labelList trades).count b →
        List.Sublist [a, b] (firstOccs (labelList trades)) → List.Sublist [a, b] σ) ∧
      (fnAnalyzeTrades trades).strategies = σ.take 5 ∧
      (appAnalyzeTrades trades rnd).strategies = σ.take 5 := by
  have hkeys : (strategyCounts trades).map Prod.fst = firstOccs (labelList trades) :=
    keys_strategyCounts trades
  have hcount : ∀ x ∈ firstOccs (labelList trades),
      countOf (strategyCounts trades) x = (labelList trades).count x := by
    intro x hx
    rw [strategyCounts_eq_countsOf]
    exact countOf_countsOf hx
  have htrans : ∀ (a b c : String),
      (fun a b => decide (countOf (strategyCounts trades) b ≤
        countOf (strategyCounts trades) a)) a b →
      (fun a b => decide (countOf (strategyCounts trades) b ≤
        countOf (strategyCounts trades) a)) b c →
      (fun a b => decide (countOf (strategyCounts trades) b ≤
        countOf (strategyCounts trades) a)) a c := by
    intro a b c hab hbc
    simp only [decide_eq_true_iff] at *
    omega
  have htotal : ∀ (a b : String),
      (fun a b => decide (countOf (strategyCounts trades) b ≤
        countOf (strategyCounts trades) a)) a b ||
      (fun a b => decide (countOf (strategyCounts trades) b ≤
        countOf (strategyCounts trades) a)) b a := by
    intro a b
    simp only [Bool.or_eq_true, decide_eq_true_iff]
    omega
  have hperm := List.mergeSort_perm ((strategyCounts trades).map Prod.fst)
    (fun a b => decide (countOf (strategyCounts trades) b ≤
      countOf (strategyCounts trades) a))
  refine ⟨((strategyCounts trades).map Prod.fst).mergeSort
      (fun a b => decide (countOf (strategyCounts trades) b ≤
        countOf (strategyCounts trades) a)), ?_, ?_, ?_, ?_, ?_, ?_⟩
  · have hnd := nodup_firstOccs (labelList trades)
    rw [← hkeys] at hnd
    exact hperm.nodup_iff.mpr hnd
  · intro s
    rw [List.mem_mergeSort, hkeys, mem_firstOccs]
  · have hsorted := List.sorted_mergeSort htrans htotal
      ((strategyCounts trades).map Prod.fst)
    refine List.Pairwise.imp_of_mem ?_ hsorted
    intro a b ha hb hab
    have ha2 : a ∈ firstOccs (labelList trades) := by
      rw [← hkeys]; exact List.mem_mergeSort.mp ha
    have hb2 : b ∈ firstOccs (labelList trades) := by
      rw [← hkeys]; exact List.mem_mergeSort.mp hb
    have hle := of_decide_eq_true hab
    rw [hcount a ha2, hcount b hb2] at hle
    exact hle
  · intro a b hab hsub
    have ha : a ∈ firstOccs (labelList trades) := hsub.subset (by simp)
    have hb : b ∈ firstOccs (labelList trades) := hsub.subset (by simp)
    refine List.pair_sublist_mergeSort htrans htotal ?_ ?_
    · have hle : countOf (strategyCounts trades) b ≤ countOf (strategyCounts trades) a := by
        rw [hcount a ha, hcount b hb, hab]
      exact decide_eq_true hle
    · rw [hkeys]; exact hsub
  · by_cases he : trades = []
    · subst he
      have h0 : strategyCounts ([] : List Trade) = [] := rfl
      simp [fnAnalyzeTrades, emptyAnalysis, h0]
    · rw [fnAnalyzeTrades_of_ne trades he, analyzeCore_strategies, topStrategies_eq_take,
        List.take_take]
      norm_num
  · by_cases he : trades = []
    · subst he
      have h0 : strategyCounts ([] : List Trade) = [] := rfl
      simp [appAnalyzeTrades, emptyAnalysis, h0]
    · rw [appAnalyzeTrades_of_ne trades rnd he, analyzeCore_strategies, topStrategies_eq_take,
        List.take_take]
      norm_num

end TradeApi
